import Mathlib

/-
Verification of the thread-safe joinable queue `locked_opt_queue<T>`
(src/ThreadSafeQueue.hpp) against its natural-language specification.

Embedding: every public operation of the class is a single critical
section guarded by one mutex, so its concurrent behaviour is the
lock-serialized sequence of atomic state transformations.  We model the
protected state (`m_queue`, `m_joined`) as `QState` and each operation
as a pure function on it.  A blocking operation (the two pop variants
and `join`) is modelled with an outer `Option`: `none` means the call
cannot complete from this state (the condition-variable wait predicate
is false, the thread blocks and leaves the state untouched).
-/

namespace ThreadSafeQueue

/-- The mutex-protected state of `locked_opt_queue<T>`: `items` models
`m_queue` (head of the list is the front of the queue), `stopped`
models `m_joined`. -/
structure QState (α : Type) where
  items : List α
  stopped : Bool
deriving DecidableEq, Repr

variable {α : Type}

/-- Embedding of `push` (lines 106-119): under the lock, if `m_joined`
return `false` leaving the state unchanged; otherwise append the value
at the tail and return `true`. -/
def push (v : α) (s : QState α) : Bool × QState α :=
  if s.stopped then (false, s)
  else (true, ⟨s.items ++ [v], s.stopped⟩)

/-- Embedding of `wait_pop` (lines 46-69): if `m_joined`, return an
empty optional (both the early check and the post-wait recheck collapse
to this in the atomic model).  Otherwise the wait predicate
`!m_queue.empty() or m_joined` reduces to the queue being non-empty:
if the queue is empty the call blocks (outer `none`), else the front
element is removed and returned. -/
def wait_pop (s : QState α) : Option (Option α × QState α) :=
  if s.stopped then some (none, s)
  else
    match s.items with
    | [] => none
    | x :: xs => some (some x, ⟨xs, s.stopped⟩)

/-- Embedding of `get` (lines 75-99): if `m_joined` and the queue is
empty, return an empty optional (early check and post-wait recheck
collapse).  Otherwise the wait predicate
`!empty or (m_joined and empty)` reduces to the queue being non-empty:
if empty the call blocks (outer `none`), else the front element is
removed and returned (the `notify_all` has no effect on the protected
state). -/
def get (s : QState α) : Option (Option α × QState α) :=
  if s.stopped && s.items.isEmpty then some (none, s)
  else
    match s.items with
    | [] => none
    | x :: xs => some (some x, ⟨xs, s.stopped⟩)

/-- Embedding of `stop` (lines 145-153): set `m_joined` and notify all
waiters; the protected state keeps its items. -/
def stop (s : QState α) : QState α :=
  ⟨s.items, true⟩

/-- Embedding of `empty` (lines 124-128): lock and report whether
`m_queue` is empty; the state is returned unchanged. -/
def empty (s : QState α) : Bool × QState α :=
  (s.items.isEmpty, s)

/-- Embedding of `size` (lines 176-180): lock and report the current
item count; the state is returned unchanged. -/
def size (s : QState α) : Nat × QState α :=
  (s.items.length, s)

/-- Embedding of `complete` (lines 134-137): lock and report
`m_joined and m_queue.empty()`; the state is returned unchanged. -/
def complete (s : QState α) : Bool × QState α :=
  (s.stopped && s.items.isEmpty, s)

/-- The locked prefix of `join` (lines 155-163): set `m_joined = true`.
This state change happens whether or not the call then blocks. -/
def joinEnter (s : QState α) : QState α :=
  ⟨s.items, true⟩

/-- The wait predicate of `join` (lines 166-170):
`m_joined and m_queue.empty()`. -/
def joinWaitPred (s : QState α) : Bool :=
  s.stopped && s.items.isEmpty

/-- Embedding of `join` (lines 155-171): set `m_joined`; if the queue
is empty return immediately, otherwise block (outer `none`) on the wait
predicate `m_joined and m_queue.empty()` without consuming items. -/
def join (s : QState α) : Option (QState α) :=
  if (joinEnter s).items.isEmpty then some (joinEnter s) else none

/-- Embedding of `wait_pop` keeping the access to the front of the
queue explicit: the inner `none` marks the undefined behaviour of
calling `front()`/`pop()` on an empty `std::queue` (the branch of lines
65-66 reached with an empty buffer). -/
def wait_popChecked (s : QState α) : Option (Option (Option α × QState α)) :=
  if s.stopped then some (some (none, s))
  else if s.items.isEmpty then none
  else
    match s.items.head? with
    | none => some none
    | some x => some (some (some x, ⟨s.items.tail, s.stopped⟩))

/-- Embedding of `get` keeping the access to the front of the queue
explicit: the inner `none` marks the undefined behaviour of calling
`front()`/`pop()` on an empty `std::queue` (the branch of lines 94-95
reached with an empty buffer). -/
def getChecked (s : QState α) : Option (Option (Option α × QState α)) :=
  if s.stopped && s.items.isEmpty then some (some (none, s))
  else if s.items.isEmpty then none
  else
    match s.items.head? with
    | none => some none
    | some x => some (some (some x, ⟨s.items.tail, s.stopped⟩))

/-- Repeatedly call `get`, collecting the returned values, until it
returns an empty optional (or would block), with fuel `n`. -/
def drainRun : Nat → QState α → List α × QState α
  | 0, s => ([], s)
  | n + 1, s =>
    match get s with
    | some (some x, s2) =>
      let r := drainRun n s2
      (x :: r.1, r.2)
    | _ => ([], s)

/-- One lock-serialized call of a public operation, as a client thread
can issue it. -/
inductive Op (α : Type) where
  | pushv (v : α)
  | wpop
  | gpop
  | stopq
  | joinq
  | emptyq
  | sizeq
  | completeq
deriving DecidableEq, Repr

/-- The state transformation of one lock-serialized call.  A blocked
call (`wait_pop`/`get` with a false wait predicate) leaves the state
unchanged; a blocked `join` has already set `m_joined` inside its
critical section. -/
def step : Op α → QState α → QState α
  | .pushv v, s => (push v s).2
  | .wpop, s =>
    match wait_pop s with
    | some r => r.2
    | none => s
  | .gpop, s =>
    match get s with
    | some r => r.2
    | none => s
  | .stopq, s => stop s
  | .joinq, s => joinEnter s
  | .emptyq, s => (empty s).2
  | .sizeq, s => (size s).2
  | .completeq, s => (complete s).2

/-- Run a lock-serialized trace of calls. -/
def run : List (Op α) → QState α → QState α
  | [], s => s
  | op :: r, s => run r (step op s)

/-- The values accepted by successful pushes along a trace, in
lock-serialized order. -/
def pushedOf : List (Op α) → QState α → List α
  | [], _ => []
  | op :: r, s =>
    match op with
    | .pushv v =>
      if s.stopped then pushedOf r (step op s)
      else v :: pushedOf r (step op s)
    | _ => pushedOf r (step op s)

/-- The values delivered to consumers (by `wait_pop` or `get`) along a
trace, in lock-serialized order. -/
def popsOf : List (Op α) → QState α → List α
  | [], _ => []
  | op :: r, s =>
    match op with
    | .wpop =>
      match wait_pop s with
      | some (some x, _) => x :: popsOf r (step op s)
      | _ => popsOf r (step op s)
    | .gpop =>
      match get s with
      | some (some x, _) => x :: popsOf r (step op s)
      | _ => popsOf r (step op s)
    | _ => popsOf r (step op s)

/-- Helper: on a stopped state with enough fuel, `drainRun` returns the
whole buffer in order and ends on the empty stopped state. -/
lemma drainRun_stopped (l : List α) :
    ∀ n, l.length ≤ n → drainRun n (⟨l, true⟩ : QState α) = (l, ⟨[], true⟩) := by
  induction l with
  | nil =>
    intro n _
    cases n with
    | zero => rfl
    | succ n => simp [drainRun, get]
  | cons x xs ih =>
    intro n hn
    cases n with
    | zero => simp at hn
    | succ n =>
      have hx : xs.length ≤ n := by
        simpa [Nat.succ_le_succ_iff] using hn
      simp [drainRun, get, ih n hx]

/-- C1: after `stop()`, repeatedly calling the drain-style pop `get`
(with enough fuel) yields exactly the items that were in the buffer at
the moment of `stop()`, in FIFO order, ending in the empty stopped
state, and one further `get` returns an empty optional. -/
theorem c1_drain_correct (s : QState α) (n : Nat) (h : s.items.length ≤ n) :
    drainRun n (stop s) = (s.items, ⟨[], true⟩) ∧
    get (⟨[], true⟩ : QState α) = some (none, ⟨[], true⟩) := by
  refine ⟨?_, by simp [get]⟩
  simpa [stop] using drainRun_stopped s.items n h

/-- Witness for C1 at a concrete input. -/
theorem c1_drain_correct_witness :
    (⟨[1, 2, 3], false⟩ : QState Nat).items.length ≤ 3 ∧
    drainRun 3 (stop (⟨[1, 2, 3], false⟩ : QState Nat)) = ([1, 2, 3], ⟨[], true⟩) :=
  ⟨by decide, (c1_drain_correct ⟨[1, 2, 3], false⟩ 3 (by decide)).1⟩

/-- C2: on a stopped state, `wait_pop` returns an empty optional and
leaves the buffer unchanged even if items remain; on a non-stopped
state with a non-empty buffer it removes and returns the head item. -/
theorem c2_wait_pop_abandon (s : QState α) :
    (s.stopped = true → wait_pop s = some (none, s)) ∧
    (∀ x xs, s.stopped = false → s.items = x :: xs →
      wait_pop s = some (some x, ⟨xs, false⟩)) := by
  constructor
  · intro h
    simp [wait_pop, h]
  · intro x xs h hi
    simp [wait_pop, h, hi]

/-- Witness for C2 at concrete inputs. -/
theorem c2_wait_pop_abandon_witness :
    wait_pop (⟨[7, 8], true⟩ : QState Nat) = some (none, ⟨[7, 8], true⟩) ∧
    wait_pop (⟨[7, 8], false⟩ : QState Nat) = some (some 7, ⟨[8], false⟩) :=
  ⟨(c2_wait_pop_abandon ⟨[7, 8], true⟩).1 rfl,
   (c2_wait_pop_abandon ⟨[7, 8], false⟩).2 7 [8] rfl rfl⟩

/-- C3: whenever `get` completes, it returns an empty optional exactly
when the state was stopped with an empty buffer (leaving the state
unchanged); otherwise it removes and returns the head item of the FIFO
buffer, preserving the stopped flag. -/
theorem c3_get_drain (s s2 : QState α) (r : Option α) (h : get s = some (r, s2)) :
    (r = none ↔ s.stopped = true ∧ s.items = []) ∧
    (r = none → s2 = s) ∧
    (∀ x, r = some x → s.items = x :: s2.items ∧ s2.stopped = s.stopped) := by
  by_cases hs : s.stopped && s.items.isEmpty
  · rw [get, if_pos hs] at h
    obtain ⟨h1, h2⟩ := Prod.mk.injEq _ _ _ _ ▸ Option.some.injEq _ _ ▸ h
    subst h1
    refine ⟨?_, fun _ => h2.symm, fun x hx => by simp at hx⟩
    simp only [Bool.and_eq_true, List.isEmpty_iff] at hs
    simp [hs]
  · rw [get, if_neg hs] at h
    match hi : s.items with
    | [] =>
      rw [hi] at h
      simp at h
    | x :: xs =>
      rw [hi] at h
      simp only [Option.some.injEq, Prod.mk.injEq] at h
      obtain ⟨h1, h2⟩ := h
      subst h1
      refine ⟨by simp [hi], by simp, fun y hy => ?_⟩
      obtain rfl : x = y := by simpa using hy
      simp [hi, ← h2]

/-- Witness for C3 at a concrete input. -/
theorem c3_get_drain_witness :
    get (⟨[4, 5], true⟩ : QState Nat) = some (some 4, ⟨[5], true⟩) ∧
    ((some 4 = (none : Option Nat)) ↔
      (⟨[4, 5], true⟩ : QState Nat).stopped = true ∧
      (⟨[4, 5], true⟩ : QState Nat).items = []) :=
  ⟨by decide, (c3_get_drain (⟨[4, 5], true⟩ : QState Nat) ⟨[5], true⟩ (some 4) (by decide)).1⟩

/-- C4: pushing onto a stopped state returns `false` and leaves the
state unchanged; pushing onto a non-stopped state appends the value at
the tail and returns `true`. -/
theorem c4_push (s : QState α) (v : α) :
    (s.stopped = true → push v s = (false, s)) ∧
    (s.stopped = false → push v s = (true, ⟨s.items ++ [v], false⟩)) := by
  constructor
  · intro h
    simp [push, h]
  · intro h
    simp [push, h]

/-- Witness for C4 at concrete inputs. -/
theorem c4_push_witness :
    push 9 (⟨[1], true⟩ : QState Nat) = (false, ⟨[1], true⟩) ∧
    push 9 (⟨[1], false⟩ : QState Nat) = (true, ⟨[1, 9], false⟩) :=
  ⟨(c4_push ⟨[1], true⟩ 9).1 rfl, (c4_push ⟨[1], false⟩ 9).2 rfl⟩

/-- Helper: a complete state (stopped with an empty buffer) is a fixed
point of every lock-serialized call. -/
lemma step_fixed_of_complete (op : Op α) (s : QState α)
    (h : (complete s).1 = true) : step op s = s := by
  obtain ⟨items, stopped⟩ := s
  simp only [complete, Bool.and_eq_true, List.isEmpty_iff] at h
  obtain ⟨h1, h2⟩ := h
  subst h1 h2
  cases op <;> simp [step, push, wait_pop, get, stop, joinEnter, empty, size, complete]

/-- Helper: a complete state is a fixed point of every trace of calls. -/
lemma run_fixed_of_complete (ops : List (Op α)) (s : QState α)
    (h : (complete s).1 = true) : run ops s = s := by
  induction ops with
  | nil => rfl
  | cons op r ih => rw [run, step_fixed_of_complete op s h, ih]

/-- C5: completeness is absorbing — once `complete` reports `true`, no
subsequent trace of public operations can make it report `false`. -/
theorem c5_complete_absorbing (s : QState α) (ops : List (Op α))
    (h : (complete s).1 = true) : (complete (run ops s)).1 = true := by
  rw [run_fixed_of_complete ops s h]
  exact h

/-- Witness for C5 at a concrete input. -/
theorem c5_complete_absorbing_witness :
    (complete (⟨[], true⟩ : QState Nat)).1 = true ∧
    (complete (run [Op.pushv 3, Op.gpop, Op.stopq, Op.joinq]
      (⟨[], true⟩ : QState Nat))).1 = true :=
  ⟨rfl, c5_complete_absorbing ⟨[], true⟩ [Op.pushv 3, Op.gpop, Op.stopq, Op.joinq] rfl⟩

/-- Helper: no lock-serialized call ever resets the stopped flag. -/
lemma step_stopped_mono (op : Op α) (s : QState α)
    (h : s.stopped = true) : (step op s).stopped = true := by
  cases op <;>
    simp only [step, push, wait_pop, get, stop, joinEnter, empty, size, complete, h] <;>
    first
      | rfl
      | (cases hi : s.items <;> simp [hi, h])

/-- Helper: no trace of calls ever resets the stopped flag. -/
lemma run_stopped_mono (ops : List (Op α)) (s : QState α)
    (h : s.stopped = true) : (run ops s).stopped = true := by
  induction ops generalizing s with
  | nil => exact h
  | cons op r ih => exact ih (step op s) (step_stopped_mono op s h)

/-- C6: `stop` is idempotent — a second `stop` leaves the state exactly
as the first left it — and after a `stop`, every later `push`, however
many other operations intervene, returns `false`. -/
theorem c6_stop_idempotent (s : QState α) :
    stop (stop s) = stop s ∧
    ∀ (ops : List (Op α)) (v : α), (push v (run ops (stop s))).1 = false := by
  refine ⟨rfl, fun ops v => ?_⟩
  have h : (run ops (stop s)).stopped = true :=
    run_stopped_mono ops (stop s) rfl
  simp [push, h]

/-- C7: `join` sets the stopped flag inside its critical section
without touching the buffer; it returns immediately (in a complete
state) exactly when the buffer is empty at the call, blocks otherwise,
and its wake predicate is precisely the `complete` condition. -/
theorem c7_join (s : QState α) :
    (joinEnter s).stopped = true ∧
    (joinEnter s).items = s.items ∧
    (s.items = [] → join s = some (joinEnter s) ∧ (complete (joinEnter s)).1 = true) ∧
    (s.items ≠ [] → join s = none) ∧
    (∀ t : QState α, joinWaitPred t = (complete t).1) := by
  refine ⟨rfl, rfl, fun h => ?_, fun h => ?_, fun t => rfl⟩
  · simp [join, joinEnter, complete, h]
  · simp [join, joinEnter, h]

/-- Witness for C7 at concrete inputs. -/
theorem c7_join_witness :
    join (⟨[], false⟩ : QState Nat) = some ⟨[], true⟩ ∧
    join (⟨[1], false⟩ : QState Nat) = none :=
  ⟨((c7_join (⟨[], false⟩ : QState Nat)).2.2.1 rfl).1,
   (c7_join (⟨[1], false⟩ : QState Nat)).2.2.2.1 (by decide)⟩

/-- C8: conservation along every lock-serialized trace — the values
delivered to consumers, followed by the values still in the buffer,
are exactly the buffer's initial contents followed by the successfully
pushed values, in order.  Hence every successful push is delivered to
exactly one consumer exactly once or still sits in the buffer (no
loss, no duplication), and deliveries are FIFO with respect to the
lock-serialized order of successful pushes. -/
theorem c8_trace_conservation (ops : List (Op α)) (s : QState α) :
    popsOf ops s ++ (run ops s).items = s.items ++ pushedOf ops s := by
  induction ops generalizing s with
  | nil => simp [popsOf, run, pushedOf]
  | cons op r ih =>
    cases op with
    | pushv v =>
      by_cases h : s.stopped
      · simp [popsOf, run, pushedOf, step, push, h, ih]
      · simp only [Bool.not_eq_true] at h
        simp [popsOf, run, pushedOf, step, push, h, ih, List.append_assoc]
    | wpop =>
      by_cases h : s.stopped
      · simp [popsOf, run, pushedOf, step, wait_pop, h, ih]
      · simp only [Bool.not_eq_true] at h
        cases hi : s.items with
        | nil => simp [popsOf, run, pushedOf, step, wait_pop, h, hi, ih]
        | cons x xs => simp [popsOf, run, pushedOf, step, wait_pop, h, hi, ih]
    | gpop =>
      cases hi : s.items with
      | nil =>
        by_cases h : s.stopped
        · simp [popsOf, run, pushedOf, step, get, h, hi, ih]
        · simp only [Bool.not_eq_true] at h
          simp [popsOf, run, pushedOf, step, get, h, hi, ih]
      | cons x xs => simp [popsOf, run, pushedOf, step, get, hi, ih]
    | stopq => simp [popsOf, run, pushedOf, step, stop, ih]
    | joinq => simp [popsOf, run, pushedOf, step, joinEnter, ih]
    | emptyq => simp [popsOf, run, pushedOf, step, empty, ih]
    | sizeq => simp [popsOf, run, pushedOf, step, size, ih]
    | completeq => simp [popsOf, run, pushedOf, step, complete, ih]

/-- C9: the observers `empty`, `size` and `complete` leave the
protected state (buffer and stopped flag) entirely unchanged. -/
theorem c9_observers_pure (s : QState α) :
    (empty s).2 = s ∧ (size s).2 = s ∧ (complete s).2 = s :=
  ⟨rfl, rfl, rfl⟩

/-- C10: every public operation is total and well-defined on a stopped
queue — `push` returns `false`, `wait_pop` returns an empty optional,
`get` completes without blocking, `stop` and `join` (on a drained
queue) return — and on every state the explicit embeddings show that
neither pop variant ever reaches the front-of-empty-buffer access. -/
theorem c10_total_on_stopped (s : QState α) (v : α) :
    (s.stopped = true →
      push v s = (false, s) ∧
      wait_pop s = some (none, s) ∧
      (get s).isSome = true ∧
      stop s = s ∧
      (s.items = [] → join s = some s)) ∧
    getChecked s ≠ some none ∧
    wait_popChecked s ≠ some none := by
  obtain ⟨it, st⟩ := s
  refine ⟨fun h => ?_, ?_, ?_⟩
  · subst h
    refine ⟨by simp [push], by simp [wait_pop], ?_, rfl, fun hi => ?_⟩
    · cases it <;> simp [get]
    · subst hi
      simp [join, joinEnter]
  · cases it with
    | nil => cases st <;> simp [getChecked]
    | cons x xs => cases st <;> simp [getChecked]
  · cases it with
    | nil => cases st <;> simp [wait_popChecked]
    | cons x xs => cases st <;> simp [wait_popChecked]

/-- The explicit embedding of `get` agrees with the plain one: erasing
the undefined-behaviour marker recovers `get`. -/
lemma getChecked_agrees (s : QState α) : getChecked s = Option.map some (get s) := by
  obtain ⟨it, st⟩ := s
  cases it <;> cases st <;> simp [getChecked, get]

/-- The explicit embedding of `wait_pop` agrees with the plain one:
erasing the undefined-behaviour marker recovers `wait_pop`. -/
lemma wait_popChecked_agrees (s : QState α) :
    wait_popChecked s = Option.map some (wait_pop s) := by
  obtain ⟨it, st⟩ := s
  cases it <;> cases st <;> simp [wait_popChecked, wait_pop]

/-- Witness for C10 at a concrete input. -/
theorem c10_total_on_stopped_witness :
    (⟨[], true⟩ : QState Nat).stopped = true ∧
    push 0 (⟨[], true⟩ : QState Nat) = (false, ⟨[], true⟩) ∧
    join (⟨[], true⟩ : QState Nat) = some ⟨[], true⟩ ∧
    getChecked (⟨[], true⟩ : QState Nat) ≠ some none :=
  ⟨rfl,
   ((c10_total_on_stopped ⟨[], true⟩ 0).1 rfl).1,
   ((c10_total_on_stopped ⟨[], true⟩ 0).1 rfl).2.2.2.2 rfl,
   (c10_total_on_stopped ⟨[], true⟩ 0).2.1⟩

end ThreadSafeQueue
